import Mathlib

/-!
Verification development for the agent_marketplace routing + DAG-execution +
tenant-isolation core.

Shallow embedding of:
- `src/agents/campaign-manager/index.ts` (DAG Scheduler / campaign engine)
- `src/core/bus.ts`                     (Router / MessageBus)
- `src/core/cache.ts`                   (ResponseCache)
- `src/core/tenant.ts`                  (TenantStore)

Conventions used throughout:
- JavaScript `Map`s are modelled as association lists with JS `Map` semantics
  (`mapSet` replaces in place or appends, `mapGet` finds the first binding,
  `mapDelete` removes the binding).
- Machine time (`Date.now()`, ISO date strings) is passed in explicitly.
- Opaque JSON values (step inputs/outputs, payload data) are modelled as
  `String`.
- Non-core effects (file persistence, console logging) are omitted; the
  in-memory state they snapshot is modelled exactly.
-/

namespace AgentMarketplace

/-! ### JS `Map` as an association list -/

def mapGet {β : Type} (m : List (String × β)) (k : String) : Option β :=
  (m.find? (fun p => p.1 == k)).map (·.2)

/-- JS `Map.set`: update the first binding in place, else append. -/
def mapSet {β : Type} (m : List (String × β)) (k : String) (v : β) :
    List (String × β) :=
  match m with
  | [] => [(k, v)]
  | (k', v') :: rest =>
    if k' == k then (k, v) :: rest else (k', v') :: mapSet rest k v

/-- JS `Map.delete`: remove the binding for `k` (keys are unique in a JS map,
so removing the first occurrence is exact). -/
def mapDelete {β : Type} (m : List (String × β)) (k : String) :
    List (String × β) :=
  match m with
  | [] => []
  | (k', v') :: rest =>
    if k' == k then rest else (k', v') :: mapDelete rest k

/-! ### DAG Scheduler data model (`src/agents/campaign-manager/types.ts`)

`Campaign.plan.steps` is flattened to `Campaign.steps`; fields that no claim
touches (names shown to users, ISO timestamps, log text, KPI lists) are
omitted, and two ghost instrumentation fields are added: `progressLog`
records each value assigned by `updateProgress`, i.e. the successive values
of `campaign.progress` that `saveCampaigns`/`onProgress` expose externally,
and `execLog` records, for each step execution the scheduler begins
(index.ts:212-217, entered only when `dependenciesMet` just returned true
on the current step array), the step index together with a snapshot of the
step array at that moment. Neither field feeds back into execution. -/

inductive StepStatus where
  | pending | running | done | failed | skipped
deriving DecidableEq, Repr

inductive CampaignStatus where
  | planning | active | paused | completed | failed
deriving DecidableEq, Repr

structure CampaignStep where
  id : String
  name : String
  agent : String
  action : String
  dependsOn : List String
  status : StepStatus
  output : Option String := none
  error : Option String := none
deriving DecidableEq, Repr

structure StepResult where
  stepId : String
  stepName : String
  agent : String
  status : StepStatus
deriving DecidableEq, Repr

structure Campaign where
  status : CampaignStatus
  steps : List CampaignStep
  currentStep : Nat
  progress : Nat
  results : List StepResult
  progressLog : List Nat := []
  execLog : List (Nat × List CampaignStep) := []
deriving DecidableEq, Repr

/-! ### DAG Scheduler operations (`src/agents/campaign-manager/index.ts`) -/

/-- Models `allSteps.find((s) => s.id === depId)`. -/
def findStep (steps : List CampaignStep) (id : String) : Option CampaignStep :=
  steps.find? (fun s => s.id == id)

/-- Embeds `dependenciesMet` (index.ts:367-373): every dependency id must resolve to
a step whose status is `done`; an id with no matching step counts as unmet. -/
def dependenciesMet (step : CampaignStep) (allSteps : List CampaignStep) : Bool :=
  step.dependsOn.all (fun depId =>
    match findStep allSteps depId with
    | some dep => dep.status == .done
    | none => false)

/-- Computes `Math.round((done / total) * 100)` on naturals: `⌊100·done/total + 1/2⌋`.
JS yields `NaN` for `total = 0` (never reached: templates are non-empty);
here `total = 0` gives `0`. -/
def mathRound100 (done total : Nat) : Nat :=
  (200 * done + total) / (2 * total)

/-- Embeds `updateProgress` (index.ts:375-379). The ghost `progressLog` records the
assigned value. -/
def updateProgress (c : Campaign) : Campaign :=
  let total := c.steps.length
  let done := (c.steps.filter
    (fun s => s.status == .done || s.status == .skipped)).length
  let p := mathRound100 done total
  { c with progress := p, progressLog := c.progressLog ++ [p] }

/-- The response the bus returns for the i-th step of the pass:
`.ok output` models a `result` envelope, `.error msg` models an `error`
envelope (which `runCampaign` turns into a thrown-and-caught failure).
The enriched input sent on the bus is a function of the campaign state, so an
oracle indexed by step position is a faithful abstraction of the worker side. -/
def Oracle : Type := Nat → Except String String

/-- External pause: `pause-campaign` sets `campaign.status = "paused"` while
`runCampaign` awaits the bus. `some p` means the write lands before the loop
iteration of index `p`, so every check at an index `≥ p` observes `paused`;
`none` means no pause arrives during the pass. -/
def pauseObserved (pauseAt : Option Nat) (i : Nat) : Bool :=
  match pauseAt with
  | some p => decide (p ≤ i)
  | none => false

/-- index.ts:212-217: `campaign.currentStep = i; step.status = "running";
step.startedAt = ...; this.updateProgress(campaign)`. -/
def markRunning (c : Campaign) (i : Nat) (step : CampaignStep) : Campaign :=
  updateProgress { c with
    currentStep := i,
    steps := c.steps.set i { step with status := .running },
    execLog := c.execLog ++ [(i, c.steps)] }

/-- index.ts:235-250 then 271: on a `result` response mark the step `done`,
store the output, push a `StepResult`, recompute progress. -/
def finishDone (cRun : Campaign) (i : Nat) (step : CampaignStep)
    (out : String) : Campaign :=
  updateProgress { cRun with
    steps := cRun.steps.set i
      { step with status := .done, output := some out },
    results := cRun.results ++
      [{ stepId := step.id, stepName := step.name,
         agent := step.agent, status := .done }] }

/-- index.ts:251-269 then 271: on an `error` response (re-thrown and caught)
mark the step `failed`, store the error, push a failed `StepResult`,
recompute progress; the pass continues. -/
def finishFailed (cRun : Campaign) (i : Nat) (step : CampaignStep)
    (msg : String) : Campaign :=
  updateProgress { cRun with
    steps := cRun.steps.set i
      { step with status := .failed, error := some msg },
    results := cRun.results ++
      [{ stepId := step.id, stepName := step.name,
         agent := step.agent, status := .failed }] }

/-- index.ts:206-210: `step.status = "skipped"; continue` (note: no
`updateProgress` on this path). -/
def skipStep (c : Campaign) (i : Nat) (step : CampaignStep) : Campaign :=
  { c with steps := c.steps.set i { step with status := .skipped } }

/-- The `for` loop of `runCampaign` (index.ts:196-273), iterating over the
list of remaining step indices. Mirrors, in order: the pause check (break),
the dependency check (mark `skipped`, `continue`), and execution (mark
`running`, bus call, mark `done`/`failed`). -/
def runPassAux (oracle : Oracle) (pauseAt : Option Nat) :
    List Nat → Campaign → Campaign
  | [], c => c
  | i :: rest, c =>
    if pauseObserved pauseAt i then
      { c with status := .paused }
    else
      match c.steps[i]? with
      | none => runPassAux oracle pauseAt rest c
      | some step =>
        if dependenciesMet step c.steps then
          match oracle i with
          | .ok out =>
            runPassAux oracle pauseAt rest
              (finishDone (markRunning c i step) i step out)
          | .error msg =>
            runPassAux oracle pauseAt rest
              (finishFailed (markRunning c i step) i step msg)
        else
          runPassAux oracle pauseAt rest (skipStep c i step)

/-- index.ts:275-285: final status determination after the pass. If every
step is `done` or `skipped`, or some step is `failed` with none left
`pending`, the campaign becomes `completed`; otherwise the status is left as
the pass set it (`active`, or `paused` when the pause was observed). -/
def finalizeStatus (c2 : Campaign) : Campaign :=
  let allDone := c2.steps.all
    (fun s => s.status == .done || s.status == .skipped)
  let anyFailed := c2.steps.any (fun s => s.status == .failed)
  let anyPending := c2.steps.any (fun s => s.status == .pending)
  if allDone then { c2 with status := .completed }
  else if anyFailed && !anyPending then { c2 with status := .completed }
  else c2

/-- Embeds `runCampaign` (index.ts:185-292): guard on terminal statuses (the thrown
errors become `.error`), set `active`, run the pass over all indices in
declaration order, then determine the final status. -/
def runCampaign (oracle : Oracle) (pauseAt : Option Nat) (c : Campaign) :
    Except String Campaign :=
  if c.status == .completed then .error "Campaign already completed"
  else if c.status == .failed then .error "Campaign failed. Create a new one."
  else
    .ok (finalizeStatus (runPassAux oracle pauseAt
      (List.range c.steps.length) { c with status := .active }))

/-! ### Router / MessageBus (`src/core/bus.ts`, `src/core/agent.ts`)

`createMessage` draws a fresh random id and the current ISO timestamp; both
are observationally irrelevant to the claims and are abstracted to constants.
The bus's `messageLog` instrumentation is omitted; `send` is otherwise exact.
An agent's `handle` either resolves to a response message (`.ok`) or rejects /
throws (`.error` carrying `err.message`). -/

inductive MessageType where
  | task | result | error | query | register | discover | event
deriving DecidableEq, Repr

inductive Payload where
  | task (action : String) (input : String)
  | result (success : Bool) (output : String)
  | error (code : String) (message : String) (retryable : Bool)
  /-- broadcast aggregate: per agent, `{agent, response}` or `{agent, error}` -/
  | results (items : List (String × Except String Payload))

structure Message where
  id : String
  from_ : String
  to_ : String
  type : MessageType
  payload : Payload
  replyTo : Option String

/-- Embeds `createMessage` (agent.ts:74-90); fresh id / timestamp abstracted. -/
def createMessage (from_ to_ : String) (type : MessageType) (payload : Payload)
    (replyTo : Option String) : Message :=
  { id := "msg", from_ := from_, to_ := to_, type := type, payload := payload,
    replyTo := replyTo }

/-- Models the middleware type `(message, next) => Promise<Message>`; a thrown rejection is `.error`. -/
def Middleware : Type :=
  Message → (Unit → Except String Message) → Except String Message

structure AgentHandle where
  handle : Message → Except String Message

structure MessageBus where
  agents : List (String × AgentHandle)
  middlewares : List Middleware

def listAgentNames (bus : MessageBus) : List String :=
  bus.agents.map Prod.fst

/-- The middleware chain of `send` (bus.ts:59-69): wrap `execute` with each
middleware, last-registered innermost, then invoke. -/
def runChain (bus : MessageBus) (agent : AgentHandle) (message : Message) :
    Except String Message :=
  (bus.middlewares.reverse.foldl
    (fun handler mw => fun _ => mw message handler)
    (fun _ => agent.handle message)) ()

/-- Embeds `broadcast` (bus.ts:90-102): deliver to every agent except the sender,
collecting per-agent response payload or error message. -/
def broadcast (bus : MessageBus) (message : Message) : Message :=
  let items := bus.agents.foldl
    (fun acc p =>
      if p.1 == message.from_ then acc
      else
        match p.2.handle message with
        | .ok response => acc ++ [(p.1, Except.ok response.payload)]
        | .error err => acc ++ [(p.1, Except.error err)])
    []
  createMessage "bus" message.from_ .result (.results items) (some message.id)

/-- Embeds `MessageBus.send` (bus.ts:36-87). Total: every failure path returns an
error envelope, never a raw exception. -/
def send (bus : MessageBus) (message : Message) : Message :=
  if message.to_ == "*" then broadcast bus message
  else
    match mapGet bus.agents message.to_ with
    | none =>
      createMessage "bus" message.from_ .error
        (.error "AGENT_NOT_FOUND"
          ("No agent named \"" ++ message.to_ ++ "\". Available: " ++
            String.intercalate ", " (listAgentNames bus))
          false)
        (some message.id)
    | some agent =>
      match runChain bus agent message with
      | .ok response => response
      | .error err =>
        createMessage message.to_ message.from_ .error
          (.error "EXECUTION_ERROR" err true) (some message.id)

/-! ### Response Cache (`src/core/cache.ts`)

The cache key is `sha256(JSON.stringify({tenantId, agent, action, input}))`.
The serialization of the distinct tuples is injective and sha256 is treated as
a collision-free (injective) hash, so the key is modelled as the tuple itself.
Times are `Date.now()` milliseconds passed explicitly. -/

structure CacheKey where
  tenantId : String
  agent : String
  action : String
  input : String
deriving DecidableEq, Repr

/-- Embeds `makeKey` (cache.ts:42-46). -/
def makeKey (tenantId agent action input : String) : CacheKey :=
  { tenantId := tenantId, agent := agent, action := action, input := input }

structure CacheEntry where
  key : CacheKey
  tenantId : String
  agent : String
  action : String
  output : String
  createdAt : Nat
  expiresAt : Nat
  hits : Nat
deriving DecidableEq, Repr

structure CacheStats where
  hits : Nat
  misses : Nat
  saves : Nat
deriving DecidableEq, Repr

structure ResponseCache where
  entries : List (CacheKey × CacheEntry)
  defaultTTL : Nat
  maxEntries : Nat
  stats : CacheStats
deriving Repr

def cacheMapGet (m : List (CacheKey × CacheEntry)) (k : CacheKey) :
    Option CacheEntry :=
  (m.find? (fun p => p.1 == k)).map (·.2)

def cacheMapSet (m : List (CacheKey × CacheEntry)) (k : CacheKey)
    (v : CacheEntry) : List (CacheKey × CacheEntry) :=
  match m with
  | [] => [(k, v)]
  | (k', v') :: rest =>
    if k' == k then (k, v) :: rest else (k', v') :: cacheMapSet rest k v

def cacheMapDelete (m : List (CacheKey × CacheEntry)) (k : CacheKey) :
    List (CacheKey × CacheEntry) :=
  match m with
  | [] => []
  | (k', v') :: rest =>
    if k' == k then rest else (k', v') :: cacheMapDelete rest k

namespace ResponseCache

/-- Embeds `get` (cache.ts:49-69): miss if absent; expired entries (`now >
expiresAt`) are deleted and count as a miss; a hit bumps the entry's `hits`.
Returns the output (or `none`) together with the updated cache state. -/
def get (c : ResponseCache) (now : Nat) (tenantId agent action input : String) :
    Option String × ResponseCache :=
  let key := makeKey tenantId agent action input
  match cacheMapGet c.entries key with
  | none =>
    (none, { c with stats := { c.stats with misses := c.stats.misses + 1 } })
  | some entry =>
    if now > entry.expiresAt then
      (none, { c with entries := cacheMapDelete c.entries key,
                      stats := { c.stats with misses := c.stats.misses + 1 } })
    else
      (some entry.output,
       { c with entries := cacheMapSet c.entries key
                  { entry with hits := entry.hits + 1 },
                stats := { c.stats with hits := c.stats.hits + 1 } })

/-- JS `ttlMs || this.defaultTTL`: `undefined` and `0` both fall back. -/
def jsOrTTL (ttlMs : Option Nat) (dflt : Nat) : Nat :=
  match ttlMs with
  | some v => if v = 0 then dflt else v
  | none => dflt

/-- Embeds `evictOldest` (cache.ts:179-189): delete the single entry with the
strictly smallest `createdAt` seen first in iteration order. -/
def evictOldest (c : ResponseCache) : ResponseCache :=
  let oldest := c.entries.foldl
    (fun acc p =>
      match acc with
      | none => some p
      | some q => if p.2.createdAt < q.2.createdAt then some p else acc)
    none
  match oldest with
  | none => c
  | some p => { c with entries := cacheMapDelete c.entries p.1 }

/-- Embeds `set` (cache.ts:72-96): build the entry (`expiresAt = now + (ttlMs ||
defaultTTL)`), evict the oldest entry when at capacity, then insert. -/
def set (c : ResponseCache) (now : Nat) (tenantId agent action input output :
    String) (ttlMs : Option Nat) : ResponseCache :=
  let key := makeKey tenantId agent action input
  let entry : CacheEntry :=
    { key := key, tenantId := tenantId, agent := agent, action := action,
      output := output, createdAt := now,
      expiresAt := now + jsOrTTL ttlMs c.defaultTTL, hits := 0 }
  let c := if c.entries.length ≥ c.maxEntries then evictOldest c else c
  { c with entries := cacheMapSet c.entries key entry,
           stats := { c.stats with saves := c.stats.saves + 1 } }

end ResponseCache

/-! ### Tenant Resource Manager (`src/core/tenant.ts`)

`cost` is a currency amount (a JS float); the claims only require that denied
calls leave it unchanged and allowed calls add the argument, so it is
modelled as `Nat`. The `firstRequest` ISO timestamp is abstracted to the
`today` date string. -/

structure UsageToday where
  date : String
  requests : Nat
  tokens : Nat
deriving DecidableEq, Repr

structure UsageMonth where
  month : String
  requests : Nat
  tokens : Nat
  cost : Nat
deriving DecidableEq, Repr

structure UsageAllTime where
  requests : Nat
  tokens : Nat
  cost : Nat
  firstRequest : String
deriving DecidableEq, Repr

structure TenantUsage where
  today : UsageToday
  month : UsageMonth
  allTime : UsageAllTime
deriving DecidableEq, Repr

structure TenantLimits where
  requestsPerDay : Int
  requestsPerMonth : Int
deriving DecidableEq, Repr

structure TenantPlan where
  name : String
  limits : TenantLimits
deriving DecidableEq, Repr

structure Tenant where
  id : String
  active : Bool
  plan : TenantPlan
  usage : TenantUsage
deriving DecidableEq, Repr

structure TenantStore where
  tenants : List (String × Tenant)

structure TrackResult where
  allowed : Bool
  reason : Option String
deriving DecidableEq, Repr

/-- The lazy period rollover of `trackUsage` (tenant.ts:288-295): reset the
daily counters when the stored date differs from today's UTC date, and the
monthly counters when the stored month differs from `today.slice(0, 7)`. -/
def rolloverUsage (t : Tenant) (today : String) : Tenant :=
  let month := today.take 7
  let u1 := if t.usage.today.date == today then t.usage.today
    else { date := today, requests := 0, tokens := 0 }
  let u2 := if t.usage.month.month == month then t.usage.month
    else { month := month, requests := 0, tokens := 0, cost := 0 }
  { t with usage := { t.usage with today := u1, month := u2 } }

def dailyLimitReason (plan : TenantPlan) : String :=
  "Daily limit reached (" ++ toString plan.limits.requestsPerDay ++
    "/day on " ++ plan.name ++
    " plan). Upgrade for more: https://marketplace.nextbase.solutions/pricing"

def monthlyLimitReason (plan : TenantPlan) : String :=
  "Monthly limit reached (" ++ toString plan.limits.requestsPerMonth ++
    "/month on " ++ plan.name ++
    " plan). Upgrade for more: https://marketplace.nextbase.solutions/pricing"

/-- The increments of `trackUsage` (tenant.ts:306-315). -/
def incrementUsage (t : Tenant) (tokens cost : Nat) (now : String) : Tenant :=
  let u := t.usage
  { t with usage :=
    { today :=
        { u.today with
          requests := u.today.requests + 1,
          tokens := u.today.tokens + tokens },
      month :=
        { u.month with
          requests := u.month.requests + 1,
          tokens := u.month.tokens + tokens,
          cost := u.month.cost + cost },
      allTime :=
        { requests := u.allTime.requests + 1,
          tokens := u.allTime.tokens + tokens,
          cost := u.allTime.cost + cost,
          firstRequest := if u.allTime.firstRequest == "" then now
            else u.allTime.firstRequest } } }

/-- Embeds `trackUsage` (tenant.ts:280-319): fail closed on unknown/inactive tenant,
lazily roll periods, deny when a positive daily/monthly limit is already met
(`-1`, or any non-positive value, means unlimited), else increment all
counters. The tenant map reflects the in-place mutation (the rollover) even
on a denied call. -/
def trackUsage (store : TenantStore) (tenantId : String) (tokens cost : Nat)
    (today : String) : TrackResult × TenantStore :=
  match mapGet store.tenants tenantId with
  | none => ({ allowed := false, reason := some "Tenant not found" }, store)
  | some tenant =>
    if !tenant.active then
      ({ allowed := false, reason := some "Account disabled" }, store)
    else
      let tenant := rolloverUsage tenant today
      let limits := tenant.plan.limits
      if limits.requestsPerDay > 0 ∧
          (tenant.usage.today.requests : Int) ≥ limits.requestsPerDay then
        ({ allowed := false, reason := some (dailyLimitReason tenant.plan) },
         { tenants := mapSet store.tenants tenantId tenant })
      else if limits.requestsPerMonth > 0 ∧
          (tenant.usage.month.requests : Int) ≥ limits.requestsPerMonth then
        ({ allowed := false, reason := some (monthlyLimitReason tenant.plan) },
         { tenants := mapSet store.tenants tenantId tenant })
      else
        ({ allowed := true, reason := none },
         { tenants := mapSet store.tenants tenantId
             (incrementUsage tenant tokens cost today) })

/-- Runs `k` successive `trackUsage` calls for the same tenant on the same day
(results discarded; the store threads through). -/
def trackN (store : TenantStore) (tenantId : String) (today : String) :
    Nat → TenantStore
  | 0 => store
  | n + 1 => (trackUsage (trackN store tenantId today n) tenantId 0 0 today).2

/-! ## Derived predicates -/

/-- Every dependency id of `step` resolves in `steps` to a `done` step. -/
def depsAllDone (step : CampaignStep) (steps : List CampaignStep) : Prop :=
  ∀ depId ∈ step.dependsOn,
    (findStep steps depId).map (·.status) = some .done

/-- A step status the pass can leave behind (a fully evaluated step). -/
def isTerminal (s : StepStatus) : Prop :=
  s = .done ∨ s = .failed ∨ s = .skipped

/-- Dependency-before-dependent invariant over a step list. -/
def doneInv (steps : List CampaignStep) : Prop :=
  ∀ s ∈ steps, s.status = .done → depsAllDone s steps

/-- Every index in `l` points at a `pending` step of `steps`. -/
def pendingOn (steps : List CampaignStep) (l : List Nat) : Prop :=
  ∀ i ∈ l, ∀ s, steps[i]? = some s → s.status = .pending

/-! ## Basic lemmas about the scheduler embedding -/

theorem dependenciesMet_iff (step : CampaignStep)
    (steps : List CampaignStep) :
    dependenciesMet step steps = true ↔ depsAllDone step steps := by
  unfold dependenciesMet depsAllDone
  rw [List.all_eq_true]
  constructor
  · intro h depId hdep
    have hx := h depId hdep
    cases hfs : findStep steps depId with
    | none => simp only [hfs] at hx; simp at hx
    | some dep => simp only [hfs] at hx; simp at hx; simp [hx]
  · intro h depId hdep
    have hx := h depId hdep
    cases hfs : findStep steps depId with
    | none => simp [hfs] at hx
    | some dep =>
      simp [hfs] at hx
      simp [hfs, hx]

theorem updateProgress_steps (c : Campaign) :
    (updateProgress c).steps = c.steps := rfl

theorem markRunning_steps (c : Campaign) (i : Nat) (step : CampaignStep) :
    (markRunning c i step).steps =
      c.steps.set i { step with status := .running } := rfl

theorem finishDone_markRunning_steps (c : Campaign) (i : Nat)
    (step : CampaignStep) (out : String) :
    (finishDone (markRunning c i step) i step out).steps =
      c.steps.set i { step with status := .done, output := some out } := by
  simp [finishDone, markRunning, updateProgress, List.set_set]

theorem finishFailed_markRunning_steps (c : Campaign) (i : Nat)
    (step : CampaignStep) (msg : String) :
    (finishFailed (markRunning c i step) i step msg).steps =
      c.steps.set i { step with status := .failed, error := some msg } := by
  simp [finishFailed, markRunning, updateProgress, List.set_set]

theorem skipStep_steps (c : Campaign) (i : Nat) (step : CampaignStep) :
    (skipStep c i step).steps =
      c.steps.set i { step with status := .skipped } := rfl

/-- If the first `q`-match in `steps` is a `done` step, replacing any
non-`done` step (keeping its id) leaves that match intact. -/
theorem findStep_set_of_done :
    ∀ (steps : List CampaignStep) (i : Nat) (s' t d : CampaignStep)
      (q : String),
      steps[i]? = some t → s'.id = t.id → t.status ≠ .done →
      findStep steps q = some d → d.status = .done →
      findStep (steps.set i s') q = some d := by
  intro steps
  induction steps with
  | nil => intro i s' t d q h; simp at h
  | cons x xs ih =>
    intro i s' t d q hi hid ht hfind hd
    cases i with
    | zero =>
      simp only [List.getElem?_cons_zero, Option.some_inj] at hi
      subst hi
      by_cases hq : (x.id == q) = true
      · exfalso
        unfold findStep at hfind
        rw [List.find?_cons_of_pos (p := fun s => s.id == q) xs hq] at hfind
        cases hfind
        exact ht hd
      · unfold findStep at hfind ⊢
        rw [List.find?_cons_of_neg (p := fun s => s.id == q) xs
          (by simpa using hq)] at hfind
        simp only [List.set_cons_zero]
        rw [List.find?_cons_of_neg (p := fun s => s.id == q) xs
          (by simp only [hid]; simpa using hq)]
        exact hfind
    | succ j =>
      simp only [List.getElem?_cons_succ] at hi
      by_cases hq : (x.id == q) = true
      · unfold findStep at hfind ⊢
        rw [List.find?_cons_of_pos (p := fun s => s.id == q) xs hq] at hfind
        simp only [List.set_cons_succ]
        rw [List.find?_cons_of_pos (p := fun s => s.id == q) (xs.set j s') hq]
        exact hfind
      · unfold findStep at hfind ⊢
        rw [List.find?_cons_of_neg (p := fun s => s.id == q) xs
          (by simpa using hq)] at hfind
        simp only [List.set_cons_succ]
        rw [List.find?_cons_of_neg (p := fun s => s.id == q) (xs.set j s')
          (by simpa using hq)]
        exact ih j s' t d q hi hid ht hfind hd

/-- Unfolding equation for one loop iteration. -/
theorem runPassAux_cons (oracle : Oracle) (pauseAt : Option Nat) (i : Nat)
    (rest : List Nat) (c : Campaign) :
    runPassAux oracle pauseAt (i :: rest) c =
      if pauseObserved pauseAt i then { c with status := .paused }
      else
        match c.steps[i]? with
        | none => runPassAux oracle pauseAt rest c
        | some step =>
          if dependenciesMet step c.steps then
            match oracle i with
            | .ok out =>
              runPassAux oracle pauseAt rest
                (finishDone (markRunning c i step) i step out)
            | .error msg =>
              runPassAux oracle pauseAt rest
                (finishFailed (markRunning c i step) i step msg)
          else runPassAux oracle pauseAt rest (skipStep c i step) := rfl

theorem runPassAux_length (oracle : Oracle) (pauseAt : Option Nat) :
    ∀ (l : List Nat) (c : Campaign),
      (runPassAux oracle pauseAt l c).steps.length = c.steps.length := by
  intro l
  induction l with
  | nil => intro c; rfl
  | cons i rest ih =>
    intro c
    rw [runPassAux_cons]
    cases hpause : pauseObserved pauseAt i with
    | true => simp
    | false =>
      simp only [Bool.false_eq_true, if_false]
      cases hsi : c.steps[i]? with
      | none => exact ih c
      | some step =>
        simp only []
        cases hdm : dependenciesMet step c.steps with
        | false =>
          simp only [Bool.false_eq_true, if_false]
          rw [ih]
          simp [skipStep]
        | true =>
          simp only [if_true]
          cases ho : oracle i with
          | ok out =>
            rw [ih]
            rw [finishDone_markRunning_steps]
            simp
          | error msg =>
            rw [ih]
            rw [finishFailed_markRunning_steps]
            simp

/-- Dependency-before-dependent is an invariant of the pass, provided the
indices still to be processed all hold `pending` steps (every step of this
pass is executed for the first time). -/
theorem runPassAux_doneInv (oracle : Oracle) (pauseAt : Option Nat) :
    ∀ (l : List Nat) (c : Campaign), l.Nodup →
      pendingOn c.steps l → doneInv c.steps →
      doneInv (runPassAux oracle pauseAt l c).steps := by
  intro l
  induction l with
  | nil => intro c _ _ hI; exact hI
  | cons i rest ih =>
    intro c hnd hp hI
    have hndr : rest.Nodup := (List.nodup_cons.mp hnd).2
    have hir : i ∉ rest := (List.nodup_cons.mp hnd).1
    rw [runPassAux_cons]
    cases hpause : pauseObserved pauseAt i with
    | true => simpa using hI
    | false =>
      simp only [Bool.false_eq_true, if_false]
      cases hsi : c.steps[i]? with
      | none =>
        exact ih c hndr (fun j hj => hp j (List.mem_cons_of_mem _ hj)) hI
      | some step =>
        simp only []
        have hsp : step.status = .pending :=
          hp i (List.mem_cons_self _ _) step hsi
        have hsnd : step.status ≠ .done := by simp [hsp]
        have htrans : ∀ (s' : CampaignStep), s'.id = step.id →
            ∀ (s : CampaignStep), depsAllDone s c.steps →
              depsAllDone s (c.steps.set i s') := by
          intro s' hid s hdeps depId hdep
          have hx := hdeps depId hdep
          cases hfs : findStep c.steps depId with
          | none => rw [hfs] at hx; simp at hx
          | some d =>
            rw [hfs] at hx
            have hd : d.status = .done := by simpa using hx
            rw [findStep_set_of_done c.steps i s' step d depId hsi hid hsnd
              hfs hd]
            simp [hd]
        have hbranch : ∀ (s' : CampaignStep), s'.id = step.id →
            s'.dependsOn = step.dependsOn →
            (s'.status = .done → dependenciesMet step c.steps = true) →
            doneInv (c.steps.set i s') := by
          intro s' hid hdp hsdone s hs hdone
          rcases List.mem_or_eq_of_mem_set hs with hmem | hrfl
          · exact htrans s' hid s (hI s hmem hdone)
          · have hdone' : s'.status = .done := by rw [← hrfl]; exact hdone
            have hdeps : depsAllDone step c.steps :=
              (dependenciesMet_iff step c.steps).mp (hsdone hdone')
            have hdeps' : depsAllDone s c.steps := by
              intro depId hdep
              refine hdeps depId ?_
              rw [← hdp, ← hrfl]
              exact hdep
            exact htrans s' hid s hdeps'
        have hpend' : ∀ (s' : CampaignStep),
            pendingOn (c.steps.set i s') rest := by
          intro s' j hj s hsj
          have hji : i ≠ j := fun h => hir (h ▸ hj)
          rw [List.getElem?_set_ne hji] at hsj
          exact hp j (List.mem_cons_of_mem _ hj) s hsj
        cases hdm : dependenciesMet step c.steps with
        | false =>
          simp only [Bool.false_eq_true, if_false]
          refine ih _ hndr ?_ ?_
          · rw [skipStep_steps]; exact hpend' _
          · rw [skipStep_steps]
            refine hbranch _ rfl rfl ?_
            intro h; cases h
        | true =>
          simp only [if_true]
          cases ho : oracle i with
          | ok out =>
            refine ih _ hndr ?_ ?_
            · rw [finishDone_markRunning_steps]; exact hpend' _
            · rw [finishDone_markRunning_steps]
              exact hbranch _ rfl rfl (fun _ => hdm)
          | error msg =>
            refine ih _ hndr ?_ ?_
            · rw [finishFailed_markRunning_steps]; exact hpend' _
            · rw [finishFailed_markRunning_steps]
              refine hbranch _ rfl rfl ?_
              intro h; cases h

/-- With no pause, the pass leaves every processed index in a terminal
status; indices outside the worklist must already be terminal. -/
theorem runPassAux_terminal (oracle : Oracle) :
    ∀ (l : List Nat) (c : Campaign),
      (∀ j, j ∉ l → ∀ s : CampaignStep, c.steps[j]? = some s →
        isTerminal s.status) →
      ∀ (j : Nat) (s : CampaignStep),
        (runPassAux oracle none l c).steps[j]? = some s →
        isTerminal s.status := by
  intro l
  induction l with
  | nil =>
    intro c h j s hs
    rw [show runPassAux oracle none [] c = c from rfl] at hs
    exact h j (by simp) s hs
  | cons i rest ih =>
    intro c h
    rw [runPassAux_cons]
    simp only [pauseObserved, Bool.false_eq_true, if_false]
    cases hsi : c.steps[i]? with
    | none =>
      refine ih c ?_
      intro j hj s hsj
      by_cases hji : j = i
      · rw [hji, hsi] at hsj; cases hsj
      · exact h j (by simp [hji, hj]) s hsj
    | some step =>
      simp only []
      have hlt : i < c.steps.length := by
        rw [List.getElem?_eq_some] at hsi; exact hsi.1
      have hnext : ∀ (s' : CampaignStep), isTerminal s'.status →
          ∀ j, j ∉ rest → ∀ s : CampaignStep,
            (c.steps.set i s')[j]? = some s → isTerminal s.status := by
        intro s' hterm j hj s hsj
        by_cases hji : j = i
        · rw [hji, List.getElem?_set_self hlt] at hsj
          cases hsj
          exact hterm
        · rw [List.getElem?_set_ne (fun h' => hji h'.symm)] at hsj
          exact h j (by simp [hji, hj]) s hsj
      cases hdm : dependenciesMet step c.steps with
      | false =>
        simp only [Bool.false_eq_true, if_false]
        refine ih _ ?_
        rw [skipStep_steps]
        exact hnext _ (Or.inr (Or.inr rfl))
      | true =>
        simp only [if_true]
        cases ho : oracle i with
        | ok out =>
          refine ih _ ?_
          rw [finishDone_markRunning_steps]
          exact hnext _ (Or.inl rfl)
        | error msg =>
          refine ih _ ?_
          rw [finishFailed_markRunning_steps]
          exact hnext _ (Or.inr (Or.inl rfl))

/-- Once the pause is observed (at every index `≥ p`), the suffix of the step
list from `p` on is never touched by the pass. -/
theorem runPassAux_suffix (oracle : Oracle) (p : Nat) :
    ∀ (l : List Nat) (c : Campaign) (j : Nat), p ≤ j →
      (runPassAux oracle (some p) l c).steps[j]? = c.steps[j]? := by
  intro l
  induction l with
  | nil => intro c j _; rfl
  | cons i rest ih =>
    intro c j hpj
    rw [runPassAux_cons]
    cases hpause : pauseObserved (some p) i with
    | true => simp
    | false =>
      simp only [Bool.false_eq_true, if_false]
      have hip : i < p := by
        by_contra hcon
        have hobs : pauseObserved (some p) i = true := by
          simp only [pauseObserved, decide_eq_true_eq]
          omega
        rw [hobs] at hpause
        cases hpause
      have hij : i ≠ j := by omega
      cases hsi : c.steps[i]? with
      | none => exact ih c j hpj
      | some step =>
        simp only []
        cases hdm : dependenciesMet step c.steps with
        | false =>
          simp only [Bool.false_eq_true, if_false]
          rw [ih _ j hpj, skipStep_steps, List.getElem?_set_ne hij]
        | true =>
          simp only [if_true]
          cases ho : oracle i with
          | ok out =>
            rw [ih _ j hpj, finishDone_markRunning_steps,
              List.getElem?_set_ne hij]
          | error msg =>
            rw [ih _ j hpj, finishFailed_markRunning_steps,
              List.getElem?_set_ne hij]

theorem finalizeStatus_steps (c2 : Campaign) :
    (finalizeStatus c2).steps = c2.steps := by
  unfold finalizeStatus
  simp only []
  split
  · rfl
  · split <;> rfl

theorem runCampaign_eq_ok (oracle : Oracle) (pauseAt : Option Nat)
    (c c' : Campaign) (h : runCampaign oracle pauseAt c = .ok c') :
    c' = finalizeStatus (runPassAux oracle pauseAt
      (List.range c.steps.length) { c with status := .active }) := by
  unfold runCampaign at h
  split at h
  · cases h
  · split at h
    · cases h
    · cases h; rfl

/-- The steps of a successful `runCampaign` are exactly the steps the pass
produced. -/
theorem runCampaign_ok_steps (oracle : Oracle) (pauseAt : Option Nat)
    (c c' : Campaign) (h : runCampaign oracle pauseAt c = .ok c') :
    c'.steps = (runPassAux oracle pauseAt
      (List.range c.steps.length) { c with status := .active }).steps := by
  rw [runCampaign_eq_ok oracle pauseAt c c' h, finalizeStatus_steps]

/-- After a successful pauseless `runCampaign`, every step is terminal. -/
theorem runCampaign_ok_terminal (oracle : Oracle) (c c' : Campaign)
    (h : runCampaign oracle none c = .ok c') :
    ∀ s ∈ c'.steps, isTerminal s.status := by
  intro s hs
  rw [runCampaign_ok_steps oracle none c c' h] at hs
  obtain ⟨j, hj⟩ := List.getElem?_of_mem hs
  refine runPassAux_terminal oracle (List.range c.steps.length)
    { c with status := .active } ?_ j s hj
  intro j' hj' s' hs'
  exfalso
  have hlen : j' < c.steps.length := by
    rw [List.getElem?_eq_some] at hs'
    exact hs'.1
  exact hj' (List.mem_range.mpr hlen)

theorem skipStep_execLog (c : Campaign) (i : Nat) (step : CampaignStep) :
    (skipStep c i step).execLog = c.execLog := rfl

def mkStep (id name agent : String) (deps : List String) : CampaignStep :=
  { id := id, name := name, agent := agent, action := "act",
    dependsOn := deps, status := .pending }

def mkCampaign (steps : List CampaignStep) : Campaign :=
  { status := .planning, steps := steps, currentStep := 0, progress := 0,
    results := [] }

/-- The spec's failure-containment scenario: `[A(no deps), B(depends on A),
C(no deps)]`. -/
def stepsABC : List CampaignStep :=
  [mkStep "step_1" "A" "researcher" [],
   mkStep "step_2" "B" "writer" ["step_1"],
   mkStep "step_3" "C" "seo" []]

/-- Two independent steps. -/
def stepsAB : List CampaignStep :=
  [mkStep "step_1" "A" "researcher" [],
   mkStep "step_2" "B" "writer" []]

/-- A fine; B declares a dependency id that resolves to no step. -/
def stepsABdangling : List CampaignStep :=
  [mkStep "step_1" "A" "researcher" [],
   mkStep "step_2" "B" "writer" ["missing"]]

/-- Worker responses: the first step's worker errors, the rest succeed. -/
def oracleFailA : Oracle :=
  fun i => if i = 0 then .error "boom" else .ok "out"

/-- Worker responses: every step succeeds. -/
def oracleOk : Oracle := fun _ => .ok "out"

/-- The ABC campaign after a full pauseless run with every worker
succeeding. -/
def campABCdone : Campaign :=
  ((runCampaign oracleOk none (mkCampaign stepsABC)).toOption).getD
    (mkCampaign stepsABC)

/-- Its second step in final form. -/
def step2final : CampaignStep :=
  campABCdone.steps.getD 1 (mkStep "x" "x" "x" [])

/-! ## Claims -/

/-- C2: a failed step does not abort the pass. In a pauseless run every step
is still evaluated (ends `done`, `failed` or `skipped` — never left
`pending`/`running`); in the spec's concrete scenario `[A, B(dep A), C]`
with A failing, the final statuses are `[failed, skipped, done]` — C still
reaches `done` — and the Run completes. -/
theorem dag_failure_containment (oracle : Oracle) (c c' : Campaign)
    (hrun : runCampaign oracle none c = .ok c') :
    (∀ s ∈ c'.steps, isTerminal s.status) ∧
    ((runCampaign oracleFailA none (mkCampaign stepsABC)).map
        (fun x => (x.steps.map (·.status), x.status)) =
      .ok ([.failed, .skipped, .done], .completed)) :=
  ⟨runCampaign_ok_terminal oracle c c' hrun, rfl⟩

theorem dag_failure_containment_witness : isTerminal step2final.status :=
  (dag_failure_containment oracleOk (mkCampaign stepsABC) campABCdone rfl).1
    step2final (by decide)

/-- C3: a full unpaused pass always ends with Run status `completed`: when
every step is `done`/`skipped` this is the success case, and when some step
`failed` (with none `pending`, which a full pass guarantees) the status is
the same `completed` — there is no distinct completed-with-errors state. -/
theorem dag_full_pass_completed (oracle : Oracle) (c c' : Campaign)
    (hrun : runCampaign oracle none c = .ok c') :
    c'.status = .completed := by
  have hterm := runCampaign_ok_terminal oracle c c' hrun
  have hc' := runCampaign_eq_ok oracle none c c' hrun
  rw [runCampaign_ok_steps oracle none c c' hrun] at hterm
  rw [hc']
  unfold finalizeStatus
  simp only []
  set c2 := runPassAux oracle none (List.range c.steps.length)
    { c with status := .active } with hc2
  by_cases hAll : (c2.steps.all
      (fun s => s.status == .done || s.status == .skipped)) = true
  · simp [hAll]
  · have hfail : c2.steps.any (fun s => s.status == .failed) = true := by
      rw [List.all_eq_true] at hAll
      push_neg at hAll
      obtain ⟨s, hs, hns⟩ := hAll
      rcases hterm s hs with h1 | h2 | h3
      · exact absurd (by simp [h1]) hns
      · rw [List.any_eq_true]
        exact ⟨s, hs, by simp [h2]⟩
      · exact absurd (by simp [h3]) hns
    have hnp : c2.steps.any (fun s => s.status == .pending) = false := by
      rw [Bool.eq_false_iff]
      intro hany
      rw [List.any_eq_true] at hany
      obtain ⟨s, hs, hp⟩ := hany
      have hps : s.status = .pending := by simpa using hp
      rcases hterm s hs with h1 | h2 | h3
      · simp [hps] at h1
      · simp [hps] at h2
      · simp [hps] at h3
    simp [hAll, hfail, hnp]

theorem dag_full_pass_completed_witness : campABCdone.status = .completed :=
  dag_full_pass_completed oracleOk (mkCampaign stepsABC) campABCdone rfl

/-- Rounding analysis of `Math.round((done/total)*100)`: the value reaches
100 exactly when `done = total`, provided `total < 200` (at `total = 200`,
`done = 199` already rounds 99.5 up to 100). -/
theorem mathRound100_eq_100_iff (d t : Nat) (h1 : 0 < t) (h2 : t < 200)
    (hd : d ≤ t) : mathRound100 d t = 100 ↔ d = t := by
  unfold mathRound100
  have h2t : 0 < 2 * t := by omega
  have hup : (200 * d + t) / (2 * t) = 100 ↔
      100 * (2 * t) ≤ 200 * d + t ∧ 200 * d + t < 101 * (2 * t) := by
    constructor
    · intro h
      constructor
      · have := (Nat.le_div_iff_mul_le h2t).mp h.ge
        omega
      · have := (Nat.div_lt_iff_lt_mul h2t).mp
          (by omega : (200 * d + t) / (2 * t) < 101)
        omega
    · intro ⟨ha, hb⟩
      have hlo : 100 ≤ (200 * d + t) / (2 * t) :=
        (Nat.le_div_iff_mul_le h2t).mpr ha
      have hhi : (200 * d + t) / (2 * t) < 101 :=
        (Nat.div_lt_iff_lt_mul h2t).mpr hb
      omega
  rw [hup]
  omega

/-- C7 (counterexample): `updateProgress` is not invoked on the `skipped`
path (the `continue` at index.ts:209 bypasses index.ts:271), so a pass whose
last step is skipped leaves `progress` stale: for `[A, B(dep unresolvable)]`
the Run completes with every step `done` or `skipped` yet `progress = 50`,
never 100. And on a pause/resume, the re-executed first step is re-marked
`running`, so the recomputed progress drops from 50 back to 0 — the recorded
sequence of progress values `[0, 50, 0, 50, 50, 100]` is not monotone. -/
theorem dag_progress_stale_and_nonmonotone_cex :
    ((runCampaign oracleOk none (mkCampaign stepsABdangling)).map
        (fun c => (c.steps.map (·.status), c.progress, c.status)) =
      .ok ([.done, .skipped], 50, .completed)) ∧
    (((runCampaign oracleOk (some 1) (mkCampaign stepsAB)).bind
        (fun c => runCampaign oracleOk none c)).map
        (fun c => c.progressLog) = .ok [0, 50, 0, 50, 50, 100]) :=
  ⟨rfl, rfl⟩

/-- C7 (amended): whenever progress is recomputed (`updateProgress`, called
when a step is marked `running` and again after it finishes — but not on the
`skipped` path), the assigned value is `round(100·(done+skipped)/total)`,
and for Runs with fewer than 200 steps that value is 100 iff every step is
currently `done` or `skipped`. Because skipped steps trigger no
recomputation and a resumed pass re-marks finished steps `running`, the
stored progress can end below 100 with all steps terminal and can decrease
across passes. -/
theorem updateProgress_round_formula (c : Campaign)
    (h1 : 0 < c.steps.length) (h2 : c.steps.length < 200) :
    (updateProgress c).progress =
      mathRound100 ((c.steps.filter
        (fun s => s.status == .done || s.status == .skipped)).length)
        c.steps.length ∧
    ((updateProgress c).progress = 100 ↔
      ∀ s ∈ c.steps, s.status = .done ∨ s.status = .skipped) := by
  refine ⟨rfl, ?_⟩
  have hd : (c.steps.filter
      (fun s => s.status == .done || s.status == .skipped)).length ≤
      c.steps.length := List.length_filter_le _ _
  have hform : (updateProgress c).progress =
      mathRound100 ((c.steps.filter
        (fun s => s.status == .done || s.status == .skipped)).length)
        c.steps.length := rfl
  rw [hform, mathRound100_eq_100_iff _ _ h1 h2 hd,
    List.filter_length_eq_length]
  constructor
  · intro h s hs
    have := h s hs
    simpa using this
  · intro h s hs
    have := h s hs
    simpa using this

theorem updateProgress_round_formula_witness :
    (updateProgress (mkCampaign stepsABC)).progress =
      mathRound100 (((mkCampaign stepsABC).steps.filter
        (fun s => s.status == .done || s.status == .skipped)).length)
        (mkCampaign stepsABC).steps.length ∧
    ((updateProgress (mkCampaign stepsABC)).progress = 100 ↔
      ∀ s ∈ (mkCampaign stepsABC).steps,
        s.status = .done ∨ s.status = .skipped) :=
  updateProgress_round_formula (mkCampaign stepsABC) (by decide) (by decide)

/-- The two-step campaign after a pass in which a pause arrived before its
second step: `[done, pending]`, Run `paused`. -/
def campABpaused : Campaign :=
  ((runCampaign oracleOk (some 1) (mkCampaign stepsAB)).toOption).getD
    (mkCampaign stepsAB)

/-- C8 (counterexample): after a pause before step 2, the Run is `paused`
with step 2 still `pending` and one result recorded for step 1. Resuming
(calling `run` again on the same Run) does **not** continue from the pause
point: the pass restarts at the first step and re-executes the already-`done`
step 1, appending a second `step_1` result. -/
theorem dag_resume_reexecutes_done_cex :
    ((runCampaign oracleOk (some 1) (mkCampaign stepsAB)).map
        (fun c => (c.steps.map (·.status), c.status,
          c.results.map (·.stepId))) =
      .ok ([.done, .pending], .paused, ["step_1"])) ∧
    (((runCampaign oracleOk (some 1) (mkCampaign stepsAB)).bind
        (fun c => runCampaign oracleOk none c)).map
        (fun c => c.results.map (·.stepId)) =
      .ok ["step_1", "step_1", "step_2"]) :=
  ⟨rfl, rfl⟩

/-- C8 (amended): if the Run's status is `paused` when the scheduler reaches
a step, the pass stops and every step from that point on is left exactly as
it was (in particular, `pending` steps stay `pending`). A later resume runs
the pass again from the first step: it re-executes steps whose dependencies
are met even if they already reached `done` in an earlier pass (appending
duplicate results), and then executes the remaining steps. -/
theorem dag_pause_suffix_resume_restarts (oracle : Oracle) (p : Nat)
    (c c' : Campaign) (hrun : runCampaign oracle (some p) c = .ok c') :
    (∀ j, p ≤ j → c'.steps[j]? = c.steps[j]?) ∧
    (((runCampaign oracleOk (some 1) (mkCampaign stepsAB)).bind
        (fun x => runCampaign oracleOk none x)).map
        (fun x => (x.results.map (·.stepId), x.steps.map (·.status),
          x.status)) =
      .ok (["step_1", "step_1", "step_2"], [.done, .done], .completed)) := by
  refine ⟨?_, rfl⟩
  intro j hpj
  rw [runCampaign_ok_steps oracle (some p) c c' hrun]
  exact runPassAux_suffix oracle p _ _ j hpj

theorem dag_pause_suffix_resume_restarts_witness :
    campABpaused.steps[1]? = (mkCampaign stepsAB).steps[1]? :=
  (dag_pause_suffix_resume_restarts oracleOk 1 (mkCampaign stepsAB)
    campABpaused rfl).1 1 (le_refl 1)

/-! ## Map lemmas -/

theorem mapGet_mapSet_self {β : Type} (m : List (String × β)) (k : String)
    (v : β) : mapGet (mapSet m k v) k = some v := by
  induction m with
  | nil => simp [mapGet, mapSet]
  | cons p rest ih =>
    obtain ⟨k0, v0⟩ := p
    by_cases h : (k0 == k) = true
    · simp [mapSet, mapGet, h, List.find?_cons]
    · simp only [mapSet, h, Bool.false_eq_true, if_false]
      simpa [mapGet, List.find?_cons, h] using ih

theorem mapGet_mapSet_ne {β : Type} (m : List (String × β)) (k k' : String)
    (v : β) (h : k' ≠ k) : mapGet (mapSet m k v) k' = mapGet m k' := by
  have hkk : (k == k') = false := beq_eq_false_iff_ne.mpr (Ne.symm h)
  induction m with
  | nil => simp [mapGet, mapSet, List.find?, hkk]
  | cons p rest ih =>
    obtain ⟨k0, v0⟩ := p
    by_cases h0 : (k0 == k) = true
    · have hk0 : k0 = k := by simpa using h0
      simp [mapSet, mapGet, h0, List.find?_cons, hkk, hk0]
    · simp only [mapSet, h0, Bool.false_eq_true, if_false]
      by_cases h1 : (k0 == k') = true
      · simp [mapGet, List.find?_cons, h1]
      · simp only [mapGet, List.find?_cons, h1] at ih ⊢
        simpa [h1] using ih

/-! ## C4: Router error envelopes -/

def emptyBus : MessageBus := { agents := [], middlewares := [] }

def ghostMsg : Message := createMessage "caller" "ghost" .task
  (.task "act" "in") none

/-- C4 (counterexample): the error code for an unknown target is the string
`AGENT_NOT_FOUND`, not `WORKER_NOT_FOUND` as the claim states: sending to
the unregistered name `ghost` on an empty bus yields an error envelope whose
code is `AGENT_NOT_FOUND` (with `retryable = false` and the agent list in
the message), and that code differs from `WORKER_NOT_FOUND`. -/
theorem bus_unknown_worker_code_cex :
    (send emptyBus ghostMsg).type = .error ∧
    (send emptyBus ghostMsg).payload =
      .error "AGENT_NOT_FOUND" "No agent named \"ghost\". Available: "
        false ∧
    "AGENT_NOT_FOUND" ≠ "WORKER_NOT_FOUND" :=
  ⟨rfl, rfl, by decide⟩

/-- C4 (amended): `send` never propagates a raw exception — it is a total
function into response messages. For a non-broadcast envelope: if the
addressed name is not registered, the result is an error envelope with code
`AGENT_NOT_FOUND`, `retryable = false`, listing the known agent names; if the
interceptor chain or the worker throws, the failure is caught at the bus
boundary and converted into an error envelope with code `EXECUTION_ERROR`
and `retryable = true`; if the chain returns a response, that response is
returned unchanged. -/
theorem bus_send_error_envelopes (bus : MessageBus) (msg : Message)
    (hb : msg.to_ ≠ "*") :
    (mapGet bus.agents msg.to_ = none →
      send bus msg = createMessage "bus" msg.from_ .error
        (.error "AGENT_NOT_FOUND"
          ("No agent named \"" ++ msg.to_ ++ "\". Available: " ++
            String.intercalate ", " (listAgentNames bus))
          false)
        (some msg.id)) ∧
    (∀ a, mapGet bus.agents msg.to_ = some a →
      (∀ e, runChain bus a msg = .error e →
        send bus msg = createMessage msg.to_ msg.from_ .error
          (.error "EXECUTION_ERROR" e true) (some msg.id)) ∧
      (∀ r, runChain bus a msg = .ok r → send bus msg = r)) := by
  have hbeq : (msg.to_ == "*") = false := by
    simp only [beq_eq_false_iff_ne, ne_eq]
    exact hb
  refine ⟨?_, ?_⟩
  · intro hget
    unfold send
    rw [hbeq]
    simp only [Bool.false_eq_true, if_false]
    rw [hget]
  · intro a hget
    constructor
    · intro e hchain
      unfold send
      rw [hbeq]
      simp only [Bool.false_eq_true, if_false]
      rw [hget]
      simp only []
      rw [hchain]
    · intro r hchain
      unfold send
      rw [hbeq]
      simp only [Bool.false_eq_true, if_false]
      rw [hget]
      simp only []
      rw [hchain]

/-- An agent whose handler always throws. -/
def throwingAgent : AgentHandle := { handle := fun _ => .error "kaput" }

def busWithBoom : MessageBus :=
  { agents := [("boom", throwingAgent)], middlewares := [] }

def msgToBoom : Message := createMessage "caller" "boom" .task
  (.task "act" "in") none

theorem bus_send_error_envelopes_witness :
    send busWithBoom msgToBoom = createMessage "boom" "caller" .error
      (.error "EXECUTION_ERROR" "kaput" true) (some msgToBoom.id) :=
  ((bus_send_error_envelopes busWithBoom msgToBoom (by decide)).2
    throwingAgent rfl).1 "kaput" rfl

theorem cacheMapGet_set_self (m : List (CacheKey × CacheEntry)) (k : CacheKey)
    (v : CacheEntry) : cacheMapGet (cacheMapSet m k v) k = some v := by
  induction m with
  | nil => simp [cacheMapGet, cacheMapSet]
  | cons p rest ih =>
    obtain ⟨k0, v0⟩ := p
    by_cases h : (k0 == k) = true
    · simp [cacheMapSet, cacheMapGet, h, List.find?_cons]
    · simp only [cacheMapSet, h, Bool.false_eq_true, if_false]
      simpa [cacheMapGet, List.find?_cons, h] using ih

theorem cacheMapGet_set_ne (m : List (CacheKey × CacheEntry))
    (k k' : CacheKey) (v : CacheEntry) (h : k' ≠ k) :
    cacheMapGet (cacheMapSet m k v) k' = cacheMapGet m k' := by
  have hkk : (k == k') = false := beq_eq_false_iff_ne.mpr (Ne.symm h)
  induction m with
  | nil => simp [cacheMapGet, cacheMapSet, List.find?, hkk]
  | cons p rest ih =>
    obtain ⟨k0, v0⟩ := p
    by_cases h0 : (k0 == k) = true
    · have hk0 : k0 = k := by simpa using h0
      simp [cacheMapSet, cacheMapGet, h0, List.find?_cons, hkk, hk0]
    · simp only [cacheMapSet, h0, Bool.false_eq_true, if_false]
      by_cases h1 : (k0 == k') = true
      · simp [cacheMapGet, List.find?_cons, h1]
      · simp only [cacheMapGet, List.find?_cons, h1] at ih ⊢
        simpa [h1] using ih

theorem cacheMapGet_delete_ne (m : List (CacheKey × CacheEntry))
    (k k' : CacheKey) (h : k' ≠ k) :
    cacheMapGet (cacheMapDelete m k) k' = cacheMapGet m k' := by
  induction m with
  | nil => rfl
  | cons p rest ih =>
    obtain ⟨k0, v0⟩ := p
    by_cases h0 : (k0 == k) = true
    · have hk0 : k0 = k := by simpa using h0
      have hnk : (k0 == k') = false := by
        rw [hk0]
        exact beq_eq_false_iff_ne.mpr (Ne.symm h)
      simp [cacheMapDelete, cacheMapGet, h0, List.find?_cons, hnk]
    · simp only [cacheMapDelete, h0, Bool.false_eq_true, if_false]
      by_cases h1 : (k0 == k') = true
      · simp [cacheMapGet, List.find?_cons, h1]
      · simp only [cacheMapGet, List.find?_cons, h1] at ih ⊢
        simpa [h1] using ih

/-! ## C9: cache set/get round trip and silent misses -/

/-- C9: after `set` for a (tenant, worker, action, input) tuple, a `get`
with the identical tuple returns exactly the stored output while the current
time is before the entry's `expiresAt` (`now + (ttl || defaultTTL)`); once
`expiresAt` has elapsed the same `get` is a silent miss (`null`, no
exception), and a `get` for a tuple never stored is likewise a silent miss. -/
theorem cache_set_get_roundtrip (c : ResponseCache) (now now2 : Nat)
    (t w a i out : String) (ttl : Option Nat) :
    (now2 < now + ResponseCache.jsOrTTL ttl c.defaultTTL →
      ((ResponseCache.set c now t w a i out ttl).get now2 t w a i).1 =
        some out) ∧
    (now + ResponseCache.jsOrTTL ttl c.defaultTTL < now2 →
      ((ResponseCache.set c now t w a i out ttl).get now2 t w a i).1 =
        none) ∧
    (∀ t' w' a' i', cacheMapGet c.entries (makeKey t' w' a' i') = none →
      (ResponseCache.get c now2 t' w' a' i').1 = none) := by
  have hentry : cacheMapGet (ResponseCache.set c now t w a i out ttl).entries
      (makeKey t w a i) = some
        { key := makeKey t w a i, tenantId := t, agent := w, action := a,
          output := out, createdAt := now,
          expiresAt := now + ResponseCache.jsOrTTL ttl c.defaultTTL,
          hits := 0 } := by
    unfold ResponseCache.set
    exact cacheMapGet_set_self _ _ _
  refine ⟨?_, ?_, ?_⟩
  · intro hlt
    unfold ResponseCache.get
    simp only [hentry]
    rw [if_neg (by omega)]
  · intro hgt
    unfold ResponseCache.get
    simp only [hentry]
    rw [if_pos (by omega)]
  · intro t' w' a' i' hmiss
    unfold ResponseCache.get
    simp only [hmiss]

def emptyCache : ResponseCache :=
  { entries := [], defaultTTL := 3600000, maxEntries := 10000,
    stats := { hits := 0, misses := 0, saves := 0 } }

theorem cache_set_get_roundtrip_witness :
    ((ResponseCache.set emptyCache 0 "tenantA" "writer" "write-blog" "in"
        "outA" none).get 10 "tenantA" "writer" "write-blog" "in").1 =
      some "outA" :=
  (cache_set_get_roundtrip emptyCache 0 10 "tenantA" "writer" "write-blog"
    "in" "outA" none).1 (by decide)

/-! ## C6: tenant isolation of cache entries and usage counters -/

/-- The cache holding the identical request cached for two tenants. -/
def cacheTwoTenants : ResponseCache :=
  ResponseCache.set
    (ResponseCache.set emptyCache 0 "tenantA" "writer" "write-blog" "in"
      "outA" none)
    0 "tenantB" "writer" "write-blog" "in" "outB" none

def freePlan : TenantPlan :=
  { name := "free",
    limits :=
      { requestsPerDay := 10, requestsPerMonth := 100 } }

def mkTenant (id : String) : Tenant :=
  { id := id, active := true, plan := freePlan,
    usage :=
      { today :=
          { date := "2026-10-12", requests := 0, tokens := 0 },
        month :=
          { month := "2026-10", requests := 0, tokens := 0, cost := 0 },
        allTime :=
          { requests := 0, tokens := 0, cost := 0, firstRequest := "" } } }

def storeAB : TenantStore :=
  { tenants := [("tA", mkTenant "tA"), ("tB", mkTenant "tB")] }

/-- C6: for two distinct tenants issuing the identical (worker, action,
input) request: their cache keys differ (the key hashes the tenant id), a
cache `get` for one tenant never reads or writes any entry keyed to the
other tenant, a `trackUsage` for one tenant leaves the other tenant's
record untouched, and in the concrete two-tenant scenario each tenant gets
back its own cached output and only its own counters move. -/
theorem tenant_isolation (t1 t2 : String) (hne : t1 ≠ t2) (w a i : String)
    (cache : ResponseCache) (now : Nat) (store : TenantStore)
    (tokens cost : Nat) (today : String) :
    makeKey t1 w a i ≠ makeKey t2 w a i ∧
    (∀ k : CacheKey, k.tenantId = t2 →
      cacheMapGet ((ResponseCache.get cache now t1 w a i).2).entries k =
        cacheMapGet cache.entries k) ∧
    (mapGet ((trackUsage store t1 tokens cost today).2).tenants t2 =
      mapGet store.tenants t2) ∧
    ((cacheTwoTenants.get 1 "tenantA" "writer" "write-blog" "in").1 =
        some "outA" ∧
      (cacheTwoTenants.get 1 "tenantB" "writer" "write-blog" "in").1 =
        some "outB" ∧
      cacheTwoTenants.entries.length = 2 ∧
      mapGet ((trackUsage storeAB "tA" 5 0 "2026-10-12").2).tenants "tB" =
        some (mkTenant "tB") ∧
      (mapGet ((trackUsage storeAB "tA" 5 0 "2026-10-12").2).tenants
          "tA").map (fun x => x.usage.today.requests) = some 1) := by
    have hkey : makeKey t1 w a i ≠ makeKey t2 w a i := by
      intro hc
      exact hne (congrArg CacheKey.tenantId hc)
    have hkne : ∀ k : CacheKey, k.tenantId = t2 → k ≠ makeKey t1 w a i := by
      intro k hk hc
      apply hne
      rw [← hk, hc]
      rfl
    refine ⟨hkey, ?_, ?_, by decide, by decide, by decide, by decide,
      by decide⟩
    · intro k hk
      unfold ResponseCache.get
      cases hg : cacheMapGet cache.entries (makeKey t1 w a i) with
      | none => simp only [hg]
      | some entry =>
        simp only [hg]
        by_cases hexp : now > entry.expiresAt
        · rw [if_pos hexp]
          exact cacheMapGet_delete_ne _ _ _ (hkne k hk)
        · rw [if_neg hexp]
          exact cacheMapGet_set_ne _ _ _ _ (hkne k hk)
    · unfold trackUsage
      cases hg : mapGet store.tenants t1 with
      | none => simp only [hg]
      | some tenant =>
        simp only [hg]
        by_cases hact : (!tenant.active) = true
        · rw [if_pos hact]
        · rw [if_neg hact]
          split
          · exact mapGet_mapSet_ne _ _ _ _ (Ne.symm hne)
          · split
            · exact mapGet_mapSet_ne _ _ _ _ (Ne.symm hne)
            · exact mapGet_mapSet_ne _ _ _ _ (Ne.symm hne)

theorem tenant_isolation_witness :
    mapGet ((trackUsage storeAB "tA" 3 2 "2026-10-12").2).tenants "tB" =
      mapGet storeAB.tenants "tB" :=
  (tenant_isolation "tA" "tB" (by decide) "writer" "write-blog" "in"
    emptyCache 0 storeAB 3 2 "2026-10-12").2.2.1

/-! ## C5: quota exhaustion and lazy rollover -/

/-- The tenant after `k` allowed `trackUsage` calls with `tokens = cost = 0`
on day `today`. -/
def incByN (t : Tenant) (today : String) : Nat → Tenant
  | 0 => t
  | k + 1 => incrementUsage (incByN t today k) 0 0 today

theorem incByN_plan (t : Tenant) (today : String) :
    ∀ k, (incByN t today k).plan = t.plan := by
  intro k
  induction k with
  | zero => rfl
  | succ k ih => simp [incByN, incrementUsage, ih]

theorem incByN_active (t : Tenant) (today : String) :
    ∀ k, (incByN t today k).active = t.active := by
  intro k
  induction k with
  | zero => rfl
  | succ k ih => simp [incByN, incrementUsage, ih]

theorem incByN_today_date (t : Tenant) (today : String) :
    ∀ k, (incByN t today k).usage.today.date = t.usage.today.date := by
  intro k
  induction k with
  | zero => rfl
  | succ k ih => simp [incByN, incrementUsage, ih]

theorem incByN_month_month (t : Tenant) (today : String) :
    ∀ k, (incByN t today k).usage.month.month = t.usage.month.month := by
  intro k
  induction k with
  | zero => rfl
  | succ k ih => simp [incByN, incrementUsage, ih]

theorem incByN_today_requests (t : Tenant) (today : String) :
    ∀ k, (incByN t today k).usage.today.requests =
      t.usage.today.requests + k := by
  intro k
  induction k with
  | zero => rfl
  | succ k ih => simp [incByN, incrementUsage, ih]; omega

theorem rolloverUsage_plan (t : Tenant) (today : String) :
    (rolloverUsage t today).plan = t.plan := rfl

theorem rolloverUsage_active (t : Tenant) (today : String) :
    (rolloverUsage t today).active = t.active := rfl

/-- When both stored periods are current, the lazy rollover is the
identity. -/
theorem rolloverUsage_noop (t : Tenant) (today : String)
    (h1 : t.usage.today.date = today)
    (h2 : t.usage.month.month = today.take 7) :
    rolloverUsage t today = t := by
  unfold rolloverUsage
  simp [h1, h2]

/-- One `trackUsage` call from the state reached after `k` allowed calls:
allowed (and counted) while `k < N`, denied with the daily-limit reason once
`k` has reached `N`. -/
theorem trackUsage_from_incByN (m : TenantStore) (tid today : String)
    (t : Tenant) (k N : Nat) (hN : 0 < N)
    (hstate : mapGet m.tenants tid = some (incByN t today k))
    (hact : t.active = true)
    (hdate : t.usage.today.date = today)
    (hmonth : t.usage.month.month = today.take 7)
    (hreq : t.usage.today.requests = 0)
    (hday : t.plan.limits.requestsPerDay = (N : Int))
    (hmon : t.plan.limits.requestsPerMonth ≤ 0) :
    (k < N → trackUsage m tid 0 0 today =
      ({ allowed := true, reason := none },
       { tenants := mapSet m.tenants tid (incByN t today (k + 1)) })) ∧
    (N ≤ k → trackUsage m tid 0 0 today =
      ({ allowed := false, reason := some (dailyLimitReason t.plan) },
       { tenants := mapSet m.tenants tid (incByN t today k) })) := by
  have hro : rolloverUsage (incByN t today k) today = incByN t today k :=
    rolloverUsage_noop _ _ (by rw [incByN_today_date]; exact hdate)
      (by rw [incByN_month_month]; exact hmonth)
  have hcond2 : ¬((incByN t today k).plan.limits.requestsPerMonth > 0 ∧
      ((incByN t today k).usage.month.requests : Int) ≥
        (incByN t today k).plan.limits.requestsPerMonth) := by
    intro hc
    rw [incByN_plan] at hc
    omega
  constructor
  · intro hkN
    have hcond1 : ¬((incByN t today k).plan.limits.requestsPerDay > 0 ∧
        ((incByN t today k).usage.today.requests : Int) ≥
          (incByN t today k).plan.limits.requestsPerDay) := by
      intro hc
      rw [incByN_plan, incByN_today_requests, hreq, hday] at hc
      have h2 := hc.2
      omega
    unfold trackUsage
    simp only [hstate]
    rw [if_neg (by simp [incByN_active, hact]), hro, if_neg hcond1,
      if_neg hcond2]
    rfl
  · intro hNk
    have hcond1 : ((incByN t today k).plan.limits.requestsPerDay > 0 ∧
        ((incByN t today k).usage.today.requests : Int) ≥
          (incByN t today k).plan.limits.requestsPerDay) := by
      rw [incByN_plan, incByN_today_requests, hreq, hday]
      refine ⟨by omega, by omega⟩
    unfold trackUsage
    simp only [hstate]
    rw [if_neg (by simp [incByN_active, hact]), hro, if_pos hcond1,
      incByN_plan]

/-- State after `k ≤ N` calls: the tenant has been incremented `k` times. -/
theorem trackN_state (store : TenantStore) (tid today : String)
    (t : Tenant) (N : Nat) (hN : 0 < N)
    (ht : mapGet store.tenants tid = some t)
    (hact : t.active = true)
    (hdate : t.usage.today.date = today)
    (hmonth : t.usage.month.month = today.take 7)
    (hreq : t.usage.today.requests = 0)
    (hday : t.plan.limits.requestsPerDay = (N : Int))
    (hmon : t.plan.limits.requestsPerMonth ≤ 0) :
    ∀ k, k ≤ N →
      mapGet (trackN store tid today k).tenants tid =
        some (incByN t today k) := by
  intro k
  induction k with
  | zero => intro _; exact ht
  | succ k ih =>
    intro hk
    have hstate := ih (by omega)
    have hstep := (trackUsage_from_incByN (trackN store tid today k) tid
      today t k N hN hstate hact hdate hmonth hreq hday hmon).1 (by omega)
    show mapGet (trackUsage (trackN store tid today k) tid 0 0
      today).2.tenants tid = _
    rw [hstep]
    exact mapGet_mapSet_self _ _ _

/-- C5: for a tenant on a plan with daily limit `N > 0` (and unlimited
monthly sentinel), starting from a zero counter on the current UTC day, each
of the first `N` requests is allowed and request `N+1` that day is denied
with the daily-quota reason; the lazy rollover performed at request time
resets a stale daily counter (and, analogously, a stale monthly counter) to
zero; and the sentinel `-1` on both limits means unlimited — such a tenant
is always allowed. -/
theorem tenant_quota_exhaustion (store : TenantStore) (tid today : String)
    (t : Tenant) (N : Nat) (hN : 0 < N)
    (ht : mapGet store.tenants tid = some t)
    (hact : t.active = true)
    (hdate : t.usage.today.date = today)
    (hmonth : t.usage.month.month = today.take 7)
    (hreq : t.usage.today.requests = 0)
    (hday : t.plan.limits.requestsPerDay = (N : Int))
    (hmon : t.plan.limits.requestsPerMonth ≤ 0) :
    (∀ k, k < N →
      (trackUsage (trackN store tid today k) tid 0 0 today).1 =
        { allowed := true, reason := none }) ∧
    ((trackUsage (trackN store tid today N) tid 0 0 today).1 =
      { allowed := false, reason := some (dailyLimitReason t.plan) }) ∧
    (∀ u : Tenant, u.usage.today.date ≠ today →
      (rolloverUsage u today).usage.today.requests = 0) ∧
    (∀ u : Tenant, u.usage.month.month ≠ today.take 7 →
      (rolloverUsage u today).usage.month.requests = 0) ∧
    (∀ (m : TenantStore) (u : Tenant), mapGet m.tenants tid = some u →
      u.active = true → u.plan.limits.requestsPerDay = -1 →
      u.plan.limits.requestsPerMonth = -1 →
      (trackUsage m tid 0 0 today).1 =
        { allowed := true, reason := none }) := by
  refine ⟨?_, ?_, ?_, ?_, ?_⟩
  · intro k hk
    have hstate := trackN_state store tid today t N hN ht hact hdate hmonth
      hreq hday hmon k (by omega)
    have hstep := (trackUsage_from_incByN (trackN store tid today k) tid
      today t k N hN hstate hact hdate hmonth hreq hday hmon).1 hk
    rw [hstep]
  · have hstate := trackN_state store tid today t N hN ht hact hdate hmonth
      hreq hday hmon N (le_refl N)
    have hstep := (trackUsage_from_incByN (trackN store tid today N) tid
      today t N N hN hstate hact hdate hmonth hreq hday hmon).2 (le_refl N)
    rw [hstep]
  · intro u hu
    have hb : (u.usage.today.date == today) = false :=
      beq_eq_false_iff_ne.mpr hu
    simp [rolloverUsage, hb]
  · intro u hu
    have hb : (u.usage.month.month == today.take 7) = false :=
      beq_eq_false_iff_ne.mpr hu
    simp [rolloverUsage, hb]
  · intro m u hm huact hud hum
    unfold trackUsage
    simp only [hm]
    rw [if_neg (by simp [huact])]
    rw [if_neg (by
      intro hc
      have h1 := hc.1
      rw [rolloverUsage_plan, hud] at h1
      omega)]
    rw [if_neg (by
      intro hc
      have h1 := hc.1
      rw [rolloverUsage_plan, hum] at h1
      omega)]

/-- A tenant two requests away from its daily limit. -/
def tinyPlanTenant : Tenant :=
  { mkTenant "tQ" with
    plan := { name := "free",
              limits := { requestsPerDay := 2, requestsPerMonth := -1 } } }

def storeQ : TenantStore := { tenants := [("tQ", tinyPlanTenant)] }

theorem tenant_quota_exhaustion_witness :
    (trackUsage (trackN storeQ "tQ" "2026-10-12" 2) "tQ" 0 0
        "2026-10-12").1 =
      { allowed := false,
        reason := some (dailyLimitReason tinyPlanTenant.plan) } :=
  (tenant_quota_exhaustion storeQ "tQ" "2026-10-12" tinyPlanTenant 2
    (by decide) rfl rfl rfl (by decide) rfl rfl (by decide)).2.1

/-! ## C10: denied admission checks do not consume quota -/

/-- C10: a `trackUsage` call that returns `allowed = false` performs no
counter increment. For an unknown tenant, or an inactive account, the store
is returned completely unchanged; for an active tenant denied on a
daily/monthly limit, the only change to the stored tenant is the lazy period
rollover (`rolloverUsage`), which leaves `allTime` untouched, keeps a
current period's counters as they were, and resets only a stale period's
counters to zero. -/
theorem trackUsage_denied_no_increment (store : TenantStore) (tid : String)
    (tokens cost : Nat) (today : String)
    (hdenied : (trackUsage store tid tokens cost today).1.allowed = false) :
    (mapGet store.tenants tid = none →
      (trackUsage store tid tokens cost today).2 = store) ∧
    (∀ t, mapGet store.tenants tid = some t →
      (t.active = false →
        (trackUsage store tid tokens cost today).2 = store) ∧
      (t.active = true →
        (trackUsage store tid tokens cost today).2 =
          { tenants := mapSet store.tenants tid (rolloverUsage t today) } ∧
        (rolloverUsage t today).usage.allTime = t.usage.allTime ∧
        (t.usage.today.date = today →
          (rolloverUsage t today).usage.today = t.usage.today) ∧
        (t.usage.today.date ≠ today →
          (rolloverUsage t today).usage.today.requests = 0) ∧
        (t.usage.month.month = today.take 7 →
          (rolloverUsage t today).usage.month = t.usage.month) ∧
        (t.usage.month.month ≠ today.take 7 →
          (rolloverUsage t today).usage.month.requests = 0))) := by
  constructor
  · intro hnone
    unfold trackUsage
    simp only [hnone]
  · intro t ht
    constructor
    · intro hinact
      unfold trackUsage
      simp only [ht]
      rw [if_pos (by simp [hinact])]
    · intro hact
      have hstore : (trackUsage store tid tokens cost today).2 =
          { tenants := mapSet store.tenants tid (rolloverUsage t today) } := by
        unfold trackUsage at hdenied ⊢
        simp only [ht] at hdenied ⊢
        rw [if_neg (by simp [hact])] at hdenied ⊢
        by_cases hday : ((rolloverUsage t today).plan.limits.requestsPerDay
            > 0 ∧ ((rolloverUsage t today).usage.today.requests : Int) ≥
            (rolloverUsage t today).plan.limits.requestsPerDay)
        · rw [if_pos hday]
        · rw [if_neg hday] at hdenied ⊢
          by_cases hmon :
              ((rolloverUsage t today).plan.limits.requestsPerMonth > 0 ∧
              ((rolloverUsage t today).usage.month.requests : Int) ≥
              (rolloverUsage t today).plan.limits.requestsPerMonth)
          · rw [if_pos hmon]
          · rw [if_neg hmon] at hdenied
            cases hdenied
      refine ⟨hstore, rfl, ?_, ?_, ?_, ?_⟩
      · intro h
        have hb : (t.usage.today.date == today) = true := by simp [h]
        simp [rolloverUsage, hb]
      · intro h
        have hb : (t.usage.today.date == today) = false :=
          beq_eq_false_iff_ne.mpr h
        simp [rolloverUsage, hb]
      · intro h
        have hb : (t.usage.month.month == today.take 7) = true := by simp [h]
        simp [rolloverUsage, hb]
      · intro h
        have hb : (t.usage.month.month == today.take 7) = false :=
          beq_eq_false_iff_ne.mpr h
        simp [rolloverUsage, hb]

/-- An inactive tenant (admission fails closed). -/
def inactiveTenant : Tenant := { mkTenant "tI" with active := false }

def storeInactive : TenantStore := { tenants := [("tI", inactiveTenant)] }

theorem trackUsage_denied_no_increment_witness :
    (trackUsage storeInactive "tI" 3 1 "2026-10-12").2 = storeInactive :=
  ((trackUsage_denied_no_increment storeInactive "tI" 3 1 "2026-10-12"
    rfl).2 inactiveTenant rfl).1 rfl

end AgentMarketplace
